import Mathlib

/-!
# Verification of the Capstone UDP command-relay core

Shallow embedding of the three Python source files:

* `OpenVLC/TX/tx_send.py` — sender-side Framer: wrap a message in
  `<START>`/`<END>` markers, split into fixed-size packets, pad the last
  packet with spaces.
* `OpenVLC/RX/rx_relay.py` — receiver-side Framer: per-packet
  decode + `.strip()`, start/end marker scanning, reassembly buffer.
* `eth_bridge_move.py` — sanitizer (`strip_wrappers`), command
  parser/dispatcher (`_handle_command`), and the asynchronous
  drive/rotate goal callback chains.

Text is modelled as `List Char`; the UTF-8 encode/decode steps of the
source are modelled as the identity on characters (exact for the
one-byte characters all the concrete inputs use).  Python floats are
modelled as exact rationals: the parser/clamp layer performs no rounding
arithmetic, only comparisons and selections among parsed literals, so
the rational model is order-faithful.
-/

set_option maxRecDepth 4000

namespace Capstone

/-- The six ASCII whitespace characters recognised by Python's
`str.strip()` (and by `\s` in its regexes, for ASCII text). -/
def isPySpace (c : Char) : Bool :=
  c = ' ' || c = Char.ofNat 9 || c = Char.ofNat 10 ||
  c = Char.ofNat 13 || c = Char.ofNat 11 || c = Char.ofNat 12

/-- Remove trailing whitespace, as the right half of Python `str.strip()`. -/
def dropTrailWs (l : List Char) : List Char :=
  (l.reverse.dropWhile isPySpace).reverse

/-- Python `str.strip()`: remove leading and trailing whitespace. -/
def pyStrip (l : List Char) : List Char :=
  dropTrailWs (l.dropWhile isPySpace)

/-- Index of the first occurrence of `pat` as a contiguous substring of
`l`, as Python `str.find` (returning `none` instead of `-1`); the
receiver's `"<START>" in chunk` test is `(firstIdx pat l).isSome`. -/
def firstIdx (pat : List Char) : List Char → Option Nat
  | [] => if pat.isEmpty then some 0 else none
  | c :: rest =>
      if pat.isPrefixOf (c :: rest) then some 0
      else (firstIdx pat rest).map (· + 1)

/-- The literal start marker of the wire protocol. -/
def startMarker : List Char := [ '<', 'S', 'T', 'A', 'R', 'T', '>' ]

/-- The literal end marker of the wire protocol. -/
def endMarker : List Char := [ '<', 'E', 'N', 'D', '>' ]

/-- Sender side, `tx_send.py` line 27: `"<START>" + user_msg + "<END>"`. -/
def wrap (msg : List Char) : List Char :=
  startMarker ++ msg ++ endMarker

/-- `chunk.ljust(PACKET_SIZE, b" ")`: pad on the right with spaces up to
length `S` (a no-op when the chunk already has length `S`). -/
def padTo (S : Nat) (chunk : List Char) : List Char :=
  chunk ++ List.replicate (S - chunk.length) ' '

/-- Chunking loop with explicit fuel (one unit per emitted packet, so
`l.length` units always suffice when `S > 0`). -/
def packetizeGo : Nat → Nat → List Char → List (List Char)
  | _, _, [] => []
  | 0, _, _ :: _ => []
  | fuel + 1, S, c :: r => padTo S ((c :: r).take S) :: packetizeGo fuel S ((c :: r).drop S)

/-- Sender side, `tx_send.py` lines 31-36: split the wrapped bytes into
consecutive `S`-sized chunks, padding the (short) final chunk with
spaces.  Python's `range(0, len, S)` requires `S > 0`: for `S > 0` the
fuel `l.length` is never exhausted, and the `S = 0` case (a `ValueError`
in Python) is outside the model. -/
def packetize (S : Nat) (l : List Char) : List (List Char) :=
  packetizeGo l.length S l

/-- Receiver reassembly state, `rx_relay.py` lines 27-28: the in-progress
`buffer` and the `inside_message` flag. -/
structure RxState where
  buffer : List Char
  inside : Bool
deriving DecidableEq, Repr

/-- The receiver's initial state: empty buffer, not inside a message. -/
def rxInit : RxState := ⟨[], false⟩

/-- Receiver side, `rx_relay.py` lines 36-62: process one received
packet.  Decode and `.strip()` it; if a start marker occurs anywhere,
reset the buffer, set `inside_message`, and continue from just after the
first marker; then, if inside a message, either complete it at the first
end marker (emitting `buffer + chunk[:end_idx]`) or append the whole
chunk to the buffer.  Returns the new state and the emitted message, if
any. -/
def processPacket (st : RxState) (data : List Char) : RxState × Option (List Char) :=
  let chunk0 := pyStrip data
  let (buf, ins, chunk) :=
    match firstIdx startMarker chunk0 with
    | some i => (([] : List Char), true, chunk0.drop (i + startMarker.length))
    | none => (st.buffer, st.inside, chunk0)
  if ins then
    match firstIdx endMarker chunk with
    | some e => (rxInit, some (buf ++ chunk.take e))
    | none => (⟨buf ++ chunk, true⟩, none)
  else
    (⟨buf, ins⟩, none)

/-- Run the receiver loop over a packet sequence from a given state,
collecting the completed messages in emission order. -/
def runRxFrom (st : RxState) : List (List Char) → RxState × List (List Char)
  | [] => (st, [])
  | p :: ps =>
      let (st1, m) := processPacket st p
      let (st2, ms) := runRxFrom st1 ps
      (st2, match m with | some msg => msg :: ms | none => ms)

/-- The messages emitted by the receiver on a packet sequence, starting
from the initial (idle, empty-buffer) state. -/
def reassemble (ps : List (List Char)) : List (List Char) :=
  (runRxFrom rxInit ps).2

/-! ## Sanitizer: `strip_wrappers` of `eth_bridge_move.py` (lines 43-57) -/

/-- The double-quote character. -/
def dq : Char := Char.ofNat 34

/-- The single-quote character. -/
def sq : Char := Char.ofNat 39

/-- Lines 50-51: strip one layer of matching surrounding quotes
(`t[1:-1]` when `t` both starts and ends with the same quote char). -/
def unquote (t : List Char) : List Char :=
  if (t.head? = some dq ∧ t.getLast? = some dq) ∨
     (t.head? = some sq ∧ t.getLast? = some sq)
  then (t.drop 1).dropLast else t

/-- Consume a keyword case-insensitively (ASCII, as `re.IGNORECASE`),
returning the rest of the input on success. -/
def consumeCI : List Char → List Char → Option (List Char)
  | [], l => some l
  | _ :: _, [] => none
  | k :: ks, c :: cs => if c.toLower = k.toLower then consumeCI ks cs else none

/-- Matcher for the anchored pattern `^\s*<\s*start\s*>\s*` (line 53):
`some rest` when it matches (with all `\s*` greedy), else `none`. -/
def consumeStartMk (t : List Char) : Option (List Char) :=
  match t.dropWhile isPySpace with
  | '<' :: t2 =>
      match consumeCI [ 's', 't', 'a', 'r', 't' ] (t2.dropWhile isPySpace) with
      | some t4 =>
          match t4.dropWhile isPySpace with
          | '>' :: t6 => some (t6.dropWhile isPySpace)
          | _ => none
      | none => none
  | _ => none

/-- Line 53: remove a leading start marker (with tolerated interior
whitespace), if present. -/
def stripStartMk (t : List Char) : List Char :=
  match consumeStartMk t with
  | some r => r
  | none => t

/-- Matcher for `\s*<\s*end\s*>\s*$` (line 54), working on the reversed
text: reversed it reads `ws* > ws* dne ws* < ws*`.  The leftmost match of
the original pattern takes the maximal whitespace run before `<`, which
is exactly the greedy `dropWhile` on the reversed list. -/
def consumeEndMkRev (r : List Char) : Option (List Char) :=
  match r.dropWhile isPySpace with
  | '>' :: r2 =>
      match consumeCI [ 'd', 'n', 'e' ] (r2.dropWhile isPySpace) with
      | some r4 =>
          match r4.dropWhile isPySpace with
          | '<' :: r6 => some (r6.dropWhile isPySpace)
          | _ => none
      | none => none
  | _ => none

/-- Line 54: remove a trailing end marker (with tolerated interior
whitespace), if present. -/
def stripEndMk (t : List Char) : List Char :=
  match consumeEndMkRev t.reverse with
  | some r => r.reverse
  | none => t

/-- Line 56, `re.sub(r'\s+', ' ', t)`: replace every maximal run of
whitespace by a single space. -/
def collapseWs : List Char → List Char
  | [] => []
  | c :: rest =>
      if isPySpace c then
        match rest with
        | [] => [' ']
        | d :: _ => if isPySpace d then collapseWs rest else ' ' :: collapseWs rest
      else c :: collapseWs rest

/-- `strip_wrappers` (lines 43-57): trim, strip one quote layer, strip an
edge start marker and an edge end marker, collapse whitespace, trim. -/
def strip_wrappers (t : List Char) : List Char :=
  pyStrip (collapseWs (stripEndMk (stripStartMk (unquote (pyStrip t)))))

/-! ## Command parser: `_handle_command` of `eth_bridge_move.py` (lines 146-193) -/

/-- Numeric token `[+-]?\d+(?:\.\d+)?` evaluated by `float(...)`; digits
are greedy and the fractional group needs a dot followed by at least one
digit.  Returns the value and the unconsumed rest. -/
def parseNum (l : List Char) : Option (ℚ × List Char) :=
  let (sign, l1) : ℚ × List Char :=
    match l with
    | '+' :: r => (1, r)
    | '-' :: r => (-1, r)
    | _ => (1, l)
  let ds := l1.takeWhile Char.isDigit
  let l2 := l1.dropWhile Char.isDigit
  if ds.isEmpty then none
  else
    let ip : ℚ := (ds.foldl (fun n c => 10 * n + (c.toNat - 48)) 0 : Nat)
    match l2 with
    | '.' :: l3 =>
        let fs := l3.takeWhile Char.isDigit
        if fs.isEmpty then some (sign * ip, l2)
        else
          let fv : ℚ := (fs.foldl (fun n c => 10 * n + (c.toNat - 48)) 0 : Nat)
          some (sign * (ip + fv / (10 : ℚ) ^ fs.length), l3.dropWhile Char.isDigit)
    | _ => some (sign * ip, l2)

/-- `\s+`: at least one whitespace character, consumed greedily. -/
def ws1 (l : List Char) : Option (List Char) :=
  match l with
  | c :: r => if isPySpace c then some (r.dropWhile isPySpace) else none
  | [] => none

/-- `\s*$`: only whitespace remains. -/
def wsEnd (l : List Char) : Bool :=
  (l.dropWhile isPySpace).isEmpty

/-- The regex of line 154,
`^(?:vel|velocity)\s+([+-]?\d+(?:\.\d+)?)\s+([+-]?\d+(?:\.\d+)?)\s*$`
with `re.I`: the two captured numbers.  (Trying `velocity` before `vel`
is equivalent to the regex's backtracking, since after a bare `vel` the
next character `o` can never satisfy `\s+`.) -/
def matchVel (t : List Char) : Option (ℚ × ℚ) :=
  match (consumeCI [ 'v', 'e', 'l', 'o', 'c', 'i', 't', 'y' ] t).orElse (fun _ => consumeCI [ 'v', 'e', 'l' ] t) with
  | none => none
  | some r1 =>
      match ws1 r1 with
      | none => none
      | some r2 =>
          match parseNum r2 with
          | none => none
          | some (n1, r3) =>
              match ws1 r3 with
              | none => none
              | some r4 =>
                  match parseNum r4 with
                  | none => none
                  | some (n2, r5) => if wsEnd r5 then some (n1, n2) else none

/-- The optional group `(?:\s+speed\s+([+-]?\d+(?:\.\d+)?))?` of the
drive/rotate regexes. -/
def matchSpeedGroup (l : List Char) : Option (ℚ × List Char) :=
  match ws1 l with
  | none => none
  | some r1 =>
      match consumeCI [ 's', 'p', 'e', 'e', 'd' ] r1 with
      | none => none
      | some r2 =>
          match ws1 r2 with
          | none => none
          | some r3 =>
              match parseNum r3 with
              | none => none
              | some (n, r4) => some (n, r4)

/-- Shared tail of the drive/rotate regexes after the first number:
optional speed group then `\s*$`; mirrors the regex's fallback of
skipping the optional group when it cannot lead to a full match. -/
def matchTail (l : List Char) : Option (Option ℚ) :=
  match matchSpeedGroup l with
  | some (n, r) => if wsEnd r then some (some n) else if wsEnd l then some none else none
  | none => if wsEnd l then some none else none

/-- The regex of lines 163-165,
`^(?:drive)\s+(forward|backward)\s+([+-]?\d+(?:\.\d+)?)(?:\s+speed\s+([+-]?\d+(?:\.\d+)?))?\s*$`
with `re.I`: `(isForward, meters-number, optional speed number)`. -/
def matchDrive (t : List Char) : Option (Bool × ℚ × Option ℚ) :=
  match consumeCI [ 'd', 'r', 'i', 'v', 'e' ] t with
  | none => none
  | some r1 =>
      match ws1 r1 with
      | none => none
      | some r2 =>
          let dir? : Option (Bool × List Char) :=
            match consumeCI [ 'f', 'o', 'r', 'w', 'a', 'r', 'd' ] r2 with
            | some r => some (true, r)
            | none =>
                match consumeCI [ 'b', 'a', 'c', 'k', 'w', 'a', 'r', 'd' ] r2 with
                | some r => some (false, r)
                | none => none
          match dir? with
          | none => none
          | some (dir, r3) =>
              match ws1 r3 with
              | none => none
              | some r4 =>
                  match parseNum r4 with
                  | none => none
                  | some (n, r5) =>
                      match matchTail r5 with
                      | some sp => some (dir, n, sp)
                      | none => none

/-- The regex of lines 177-179,
`^(?:rotate)\s+(clockwise|counterclockwise|anticlockwise)\s+([+-]?\d+(?:\.\d+)?)(?:\s+speed\s+([+-]?\d+(?:\.\d+)?))?\s*$`
with `re.I`: `(isClockwise, degrees-number, optional speed number)`.  The
three sense alternatives are pairwise prefix-disjoint, so committing to
the first that matches equals the regex's ordered alternation. -/
def matchRotate (t : List Char) : Option (Bool × ℚ × Option ℚ) :=
  match consumeCI ("rotate".toList) t with
  | none => none
  | some r1 =>
      match ws1 r1 with
      | none => none
      | some r2 =>
          let sense? : Option (Bool × List Char) :=
            match consumeCI [ 'c', 'l', 'o', 'c', 'k', 'w', 'i', 's', 'e' ] r2 with
            | some r => some (true, r)
            | none =>
                match consumeCI [ 'c', 'o', 'u', 'n', 't', 'e', 'r', 'c', 'l', 'o', 'c', 'k', 'w', 'i', 's', 'e' ] r2 with
                | some r => some (false, r)
                | none =>
                    match consumeCI [ 'a', 'n', 't', 'i', 'c', 'l', 'o', 'c', 'k', 'w', 'i', 's', 'e' ] r2 with
                    | some r => some (false, r)
                    | none => none
          match sense? with
          | none => none
          | some (sense, r3) =>
              match ws1 r3 with
              | none => none
              | some r4 =>
                  match parseNum r4 with
                  | none => none
                  | some (n, r5) =>
                      match matchTail r5 with
                      | some sp => some (sense, n, sp)
                      | none => none

/-- Python's builtin `min(a, b)`: `a` when `a <= b`. -/
def pyMin (a b : ℚ) : ℚ := if a ≤ b then a else b

/-- Python's builtin `max(a, b)`: `a` when `a >= b`. -/
def pyMax (a b : ℚ) : ℚ := if b ≤ a then a else b

/-- Python's builtin `abs` on the rational float model. -/
def absQ (q : ℚ) : ℚ := if q < 0 then -q else q

/-- `clamp` (lines 39-40): `max(lo, min(val, hi))`. -/
def clamp (val lo hi : ℚ) : ℚ := pyMax lo (pyMin val hi)

/-- The node parameters the parser depends on (lines 70-71):
`default_drive_speed` (0.25 m/s) and `default_rot_speed` (0.8 rad/s). -/
structure Config where
  defaultDriveSpeed : ℚ
  defaultRotSpeed : ℚ
deriving DecidableEq, Repr

/-- The declared parameter defaults of the source. -/
def defaultConfig : Config := ⟨25 / 100, 8 / 10⟩

/-- The command variants `_handle_command` distinguishes.  `rot` stores
the signed degrees; the source converts to radians (`math.radians`) only
when building the goal message, a strictly monotone change of unit. -/
inductive Command where
  | stop : Command
  | vel (vx wz : ℚ) : Command
  | drive (meters speed : ℚ) : Command
  | rot (degrees speed : ℚ) : Command
  | err : Command
deriving DecidableEq, Repr

/-- The parse/validate part of `_handle_command` (lines 146-193): the
exact-match stop tuple check, then the three regexes in order, with
clamping, defaults, and the direction/sense sign rules; anything else is
a parse error. -/
def parseCmd (cfg : Config) (t : List Char) : Command :=
  if t = [ 's', 't', 'o', 'p' ] ∨ t = [ 'e', '-', 's', 't', 'o', 'p' ] ∨ t = [ 'e', 's', 't', 'o', 'p' ] then .stop
  else
    match matchVel t with
    | some (n1, n2) => .vel (clamp n1 (-(6 / 10)) (6 / 10)) (clamp n2 (-2) 2)
    | none =>
        match matchDrive t with
        | some (dir, n, sp) =>
            .drive (if dir then absQ n else -(absQ n))
              (clamp (sp.getD cfg.defaultDriveSpeed) (5 / 100) (5 / 10))
        | none =>
            match matchRotate t with
            | some (sense, n, sp) =>
                .rot (if sense then -(absQ n) else absQ n)
                  (clamp (sp.getD cfg.defaultRotSpeed) (1 / 10) (15 / 10))
            | none => .err

/-! ## Dispatch effects and reply texts -/

/-- `COMMAND_HELP` (lines 23-36), the triple-quoted help text verbatim. -/
def commandHelp : List Char :=
  ("\nCommands:\n  drive forward <meters> [speed <mps>]\n  drive backward <meters> [speed <mps>]\n  rotate clockwise <degrees> [speed <radps>]\n  rotate counterclockwise <degrees> [speed <radps>]\n  vel <linear_x_mps> <angular_z_radps>\n  stop\n\nExamples:\n  drive forward 0.5 speed 0.25\n  rotate clockwise 90\n  vel 0.2 -0.3\n").toList

/-- The reply of the unmatched fallthrough (line 193):
`'error: could not parse command\n' + COMMAND_HELP`. -/
def parseErrReply : List Char :=
  ("error: could not parse command\n").toList ++ commandHelp

/-- Floor of a rational, via floor division of numerator by denominator. -/
def ratFloor (q : ℚ) : ℤ := Int.fdiv q.num q.den

/-- Round half to even at integer precision, as Python float formatting. -/
def roundHE (x : ℚ) : ℤ :=
  let f := ratFloor x
  if x - f < 1 / 2 then f
  else if (1 : ℚ) / 2 < x - f then f + 1
  else if f % 2 = 0 then f else f + 1

/-- Python `f'{v:.3f}'` on the rational model of the value: three
rounded decimals (half-to-even), no exponent.  (A float `-0.0004` would
print a negative zero `-0.000` in Python; the rational model prints
`0.000` — no claim inspects such an output.) -/
def fmt3 (q : ℚ) : List Char :=
  let n := roundHE (q * 1000)
  let m := n.natAbs
  let fracDigits := Nat.toDigits 10 (m % 1000)
  (if n < 0 then ['-'] else []) ++ Nat.toDigits 10 (m / 1000) ++
    '.' :: (List.replicate (3 - fracDigits.length) '0' ++ fracDigits)

/-- The immediate side effects `_handle_command` performs for one parsed
command: velocity publications, replies to the sender, and asynchronous
goal submissions (handed to `_send_drive_distance` /
`_send_rotate_angle`). -/
inductive Effect where
  | publish (vx wz : ℚ) : Effect
  | reply (txt : List Char) : Effect
  | driveGoal (meters speed : ℚ) : Effect
  | rotateGoal (degrees speed : ℚ) : Effect
deriving DecidableEq, Repr

/-- The effect list of each command branch of `_handle_command`:
stop publishes zero velocity and replies `ok: stopped` (lines 148-151);
vel publishes and replies with 3-decimal formatting (lines 154-160);
drive/rotate submit a goal (lines 173, 189); the fallthrough replies
with the parse-error text (line 193). -/
def effectsOf : Command → List Effect
  | .stop => [.publish 0 0, .reply ("ok: stopped").toList]
  | .vel vx wz =>
      [.publish vx wz,
       .reply (("ok: vel ").toList ++ fmt3 vx ++ ' ' :: fmt3 wz)]
  | .drive m s => [.driveGoal m s]
  | .rot d s => [.rotateGoal d s]
  | .err => [.reply parseErrReply]

/-- `_handle_command` (lines 146-193) as parse-then-dispatch. -/
def handleCommand (cfg : Config) (t : List Char) : List Effect :=
  effectsOf (parseCmd cfg t)

/-! ## Asynchronous goal lifecycle (lines 209-260)

The submission future's result (`goal_handle`) is modelled as
`Option Bool`: `none` for an absent handle, `some b` for a handle with
`accepted = b`.  A completion notification is a bare event. -/

/-- `_drive_goal_sent` (lines 222-229): the reply it sends and whether
it registers the result callback (`add_done_callback` on
`get_result_async`). -/
def driveGoalSent (handle : Option Bool) : List Char × Bool :=
  match handle with
  | some true => (("ok: drive goal accepted").toList, true)
  | some false => (("error: drive goal rejected").toList, false)
  | none => (("error: drive goal rejected").toList, false)

/-- `_drive_result` (lines 231-233): the completion reply. -/
def driveResultReply : List Char := ("ok: drive done").toList

/-- `_rotate_goal_sent` (lines 249-256). -/
def rotateGoalSent (handle : Option Bool) : List Char × Bool :=
  match handle with
  | some true => (("ok: rotate goal accepted").toList, true)
  | some false => (("error: rotate goal rejected").toList, false)
  | none => (("error: rotate goal rejected").toList, false)

/-- `_rotate_result` (lines 258-260). -/
def rotateResultReply : List Char := ("ok: rotate done").toList

/-- The ordered reply trace of one drive goal: the submission callback
fires once with `handle`; `_drive_result` fires only if the result
callback was registered and the completion notification arrives
(`completes`). -/
def driveTrace (handle : Option Bool) (completes : Bool) : List (List Char) :=
  let (r, registered) := driveGoalSent handle
  r :: (if registered && completes then [driveResultReply] else [])

/-- The ordered reply trace of one rotate goal. -/
def rotateTrace (handle : Option Bool) (completes : Bool) : List (List Char) :=
  let (r, registered) := rotateGoalSent handle
  r :: (if registered && completes then [rotateResultReply] else [])

/-! ## Helper lemmas -/

theorem consumeCI_head {k : Char} {ks t r : List Char}
    (h : consumeCI (k :: ks) t = some r) :
    ∃ c cs, t = c :: cs ∧ c.toLower = k.toLower := by
  cases t with
  | nil => simp [consumeCI] at h
  | cons c cs =>
      refine ⟨c, cs, rfl, ?_⟩
      by_contra hne
      simp [consumeCI, hne] at h

theorem matchDrive_head {t : List Char} {x : Bool × ℚ × Option ℚ}
    (h : matchDrive t = some x) :
    ∃ c cs, t = c :: cs ∧ c.toLower = 'd'.toLower := by
  cases hc : consumeCI [ 'd', 'r', 'i', 'v', 'e' ] t with
  | none => rw [matchDrive, hc] at h; cases h
  | some r => exact consumeCI_head hc

theorem matchVel_none_of_head (cs : List Char) {c : Char}
    (hcl : c.toLower = 'd'.toLower) : matchVel (c :: cs) = none := by
  have h1 : consumeCI [ 'v', 'e', 'l', 'o', 'c', 'i', 't', 'y' ] (c :: cs) = none := by
    simp only [consumeCI, hcl]
    rw [if_neg (by decide)]
  have h2 : consumeCI [ 'v', 'e', 'l' ] (c :: cs) = none := by
    simp only [consumeCI, hcl]
    rw [if_neg (by decide)]
  rw [matchVel, h1, h2]
  rfl

theorem stop_tuple_not_drive (cs : List Char) {c : Char}
    (hcl : c.toLower = 'd'.toLower) :
    ¬(c :: cs = [ 's', 't', 'o', 'p' ] ∨ c :: cs = [ 'e', '-', 's', 't', 'o', 'p' ] ∨
      c :: cs = [ 'e', 's', 't', 'o', 'p' ]) := by
  rintro (heq | heq | heq) <;>
    (obtain ⟨rfl, -⟩ := List.cons.inj heq; exact absurd hcl (by decide))

theorem absQ_nonneg (n : ℚ) : 0 ≤ absQ n := by
  unfold absQ
  split <;> linarith

theorem dropTrailWs_eq (l : List Char) : dropTrailWs l = List.rdropWhile isPySpace l := rfl

theorem dropWhile_head_all (p : Char → Bool) :
    ∀ l : List Char, ((l.dropWhile p).head?.all fun c => !p c) = true := by
  intro l
  induction l with
  | nil => rfl
  | cons c r ih =>
      by_cases h : p c
      · simpa [List.dropWhile_cons, h] using ih
      · simp [List.dropWhile_cons, h]

theorem head?_of_prefix_ne_nil {l₁ l₂ : List Char} (h : l₁ <+: l₂) (hne : l₁ ≠ []) :
    l₂.head? = l₁.head? := by
  obtain ⟨t, rfl⟩ := h
  cases l₁ with
  | nil => exact absurd rfl hne
  | cons c r => rfl

theorem isPrefixOf_self_append (p l : List Char) : p.isPrefixOf (p ++ l) = true := by
  induction p with
  | nil => cases l <;> rfl
  | cons a as ih => simp [List.isPrefixOf, List.cons_append, ih]

theorem firstIdx_at_start {pat l : List Char} (hne : pat ≠ [])
    (h : pat.isPrefixOf l = true) : firstIdx pat l = some 0 := by
  cases l with
  | nil =>
      cases pat with
      | nil => exact absurd rfl hne
      | cons a as => simp [List.isPrefixOf] at h
  | cons c rest => rw [firstIdx, if_pos h]

theorem packetizeGo_nil (fuel S : Nat) : packetizeGo fuel S [] = [] := by
  cases fuel <;> rfl

theorem packetize_single {S : Nat} {l : List Char} (hne : l ≠ [])
    (hlen : l.length ≤ S) : packetize S l = [padTo S l] := by
  cases l with
  | nil => exact absurd rfl hne
  | cons c r =>
      show packetizeGo (c :: r).length S (c :: r) = _
      rw [List.length_cons, packetizeGo, List.take_of_length_le hlen,
        List.drop_eq_nil_of_le hlen, packetizeGo_nil]

theorem dropTrail_rep (l : List Char) (k : Nat) :
    dropTrailWs (l ++ List.replicate k ' ') = dropTrailWs l := by
  induction k with
  | zero => simp
  | succ n ih =>
      rw [List.replicate_succ', ← List.append_assoc, dropTrailWs_eq,
        List.rdropWhile_concat_pos _ _ _ (by decide), ← dropTrailWs_eq, ih]

theorem dropTrail_endMk (A : List Char) :
    dropTrailWs (A ++ endMarker) = A ++ endMarker := by
  rw [dropTrailWs, List.reverse_append]
  have h : (endMarker.reverse ++ A.reverse).dropWhile isPySpace =
      endMarker.reverse ++ A.reverse := by
    show List.dropWhile isPySpace ('>' :: ([ 'D', 'N', 'E', '<' ] ++ A.reverse)) = _
    rw [List.dropWhile_cons, if_neg (by decide)]
    rfl
  rw [h, ← List.reverse_append, List.reverse_reverse]

theorem pyStrip_wrap_pad (M : List Char) (k : Nat) :
    pyStrip (wrap M ++ List.replicate k ' ') = wrap M := by
  rw [pyStrip]
  have h1 : (wrap M ++ List.replicate k ' ').dropWhile isPySpace =
      wrap M ++ List.replicate k ' ' := by
    show List.dropWhile isPySpace
        ('<' :: ([ 'S', 'T', 'A', 'R', 'T', '>' ] ++ M ++ endMarker ++ List.replicate k ' ')) = _
    rw [List.dropWhile_cons, if_neg (by decide)]
    rfl
  rw [h1, dropTrail_rep]
  have h2 : wrap M = (startMarker ++ M) ++ endMarker := by
    rw [wrap]
  rw [h2, dropTrail_endMk]

theorem firstIdx_end_append {M : List Char} (h : firstIdx endMarker M = none) :
    firstIdx endMarker (M ++ endMarker) = some M.length := by
  induction M with
  | nil => simp only [List.nil_append, List.length_nil]; decide
  | cons c M1 ih =>
      have hp1 : endMarker.isPrefixOf (c :: M1) = false := by
        by_contra hcon
        rw [firstIdx, if_pos (Bool.of_not_eq_false hcon)] at h
        cases h
      have hrec : firstIdx endMarker M1 = none := by
        rw [firstIdx, if_neg (by rw [hp1]; exact Bool.false_ne_true)] at h
        exact Option.map_eq_none.mp h
      have hp2 : ¬endMarker.isPrefixOf (c :: (M1 ++ endMarker)) = true := by
        intro hcon
        rcases M1 with _ | ⟨a, _ | ⟨b, _ | ⟨d, _ | ⟨e, M2⟩⟩⟩⟩
        · simp [List.isPrefixOf, List.cons_append] at hcon
        · simp [List.isPrefixOf, List.cons_append] at hcon
        · simp [List.isPrefixOf, List.cons_append] at hcon
        · simp [List.isPrefixOf, List.cons_append] at hcon
        · rw [Bool.eq_false_iff] at hp1
          apply hp1
          simp only [List.isPrefixOf, List.cons_append, Bool.and_eq_true, beq_iff_eq]
            at hcon ⊢
          tauto
      rw [List.cons_append, firstIdx, if_neg hp2, ih hrec]
      simp

theorem dropWhile_eq_self_of_head {p : Char → Bool} {l : List Char}
    (h : (l.head?.all fun c => !p c) = true) : l.dropWhile p = l := by
  cases l with
  | nil => rfl
  | cons c r =>
      simp only [List.head?_cons, Option.all_some, Bool.not_eq_true'] at h
      rw [List.dropWhile_cons, if_neg (by rw [h]; exact Bool.false_ne_true)]

theorem pyStrip_head_all (data : List Char) :
    ((pyStrip data).head?.all fun c => !isPySpace c) = true := by
  have hpre : pyStrip data <+: data.dropWhile isPySpace := by
    rw [pyStrip, dropTrailWs_eq]
    exact List.rdropWhile_prefix isPySpace _
  cases hps : pyStrip data with
  | nil => rfl
  | cons c r =>
      have h1 : (data.dropWhile isPySpace).head? = some c := by
        rw [head?_of_prefix_ne_nil hpre (by simp [hps]), hps]
        rfl
      have h2 := dropWhile_head_all isPySpace data
      rw [h1] at h2
      simpa [hps] using h2

theorem pyStrip_last_all (data : List Char) :
    ((pyStrip data).getLast?.all fun c => !isPySpace c) = true := by
  by_cases hne : pyStrip data = []
  · simp [hne]
  · have hrd : pyStrip data = List.rdropWhile isPySpace (data.dropWhile isPySpace) := by
      rw [pyStrip, dropTrailWs_eq]
    have hlast := List.rdropWhile_last_not isPySpace (data.dropWhile isPySpace)
      (by rw [← hrd]; exact hne)
    rw [List.getLast?_eq_getLast _ hne]
    simp only [Option.all_some, Bool.not_eq_true']
    rw [Bool.eq_false_iff]
    intro hcon
    apply hlast
    convert hcon using 2

theorem pyStrip_idem (l : List Char) : pyStrip (pyStrip l) = pyStrip l := by
  show dropTrailWs ((pyStrip l).dropWhile isPySpace) = pyStrip l
  rw [dropWhile_eq_self_of_head (pyStrip_head_all l), dropTrailWs_eq,
    List.rdropWhile_eq_self_iff]
  intro hl
  have h := pyStrip_last_all l
  rw [List.getLast?_eq_getLast _ hl] at h
  simp only [Option.all_some, Bool.not_eq_true'] at h
  rw [h]
  exact Bool.false_ne_true

theorem collapseWs_head (l : List Char) :
    (collapseWs l).head? = l.head?.map fun c => if isPySpace c then ' ' else c := by
  induction l with
  | nil => rfl
  | cons c rest ih =>
      by_cases hc : isPySpace c
      · cases rest with
        | nil => simp [collapseWs, hc]
        | cons d r' =>
            by_cases hd : isPySpace d
            · rw [show collapseWs (c :: d :: r') = collapseWs (d :: r') from by
                simp [collapseWs, hc, hd]]
              rw [ih]
              simp [hc, hd]
            · rw [show collapseWs (c :: d :: r') = ' ' :: collapseWs (d :: r') from by
                simp [collapseWs, hc, hd]]
              simp [hc]
      · rw [show collapseWs (c :: rest) = c :: collapseWs rest from by
          simp [collapseWs, hc]]
        simp [hc]

theorem collapseWs_sp (l : List Char) :
    ∀ c ∈ collapseWs l, isPySpace c = true → c = ' ' := by
  induction l with
  | nil => simp [collapseWs]
  | cons a rest ih =>
      by_cases ha : isPySpace a
      · cases rest with
        | nil =>
            intro c hc _
            rw [show collapseWs [a] = [' '] from by simp [collapseWs, ha]] at hc
            simpa using hc
        | cons d r' =>
            by_cases hd : isPySpace d
            · intro c hc hw
              rw [show collapseWs (a :: d :: r') = collapseWs (d :: r') from by
                simp [collapseWs, ha, hd]] at hc
              exact ih c hc hw
            · intro c hc hw
              rw [show collapseWs (a :: d :: r') = ' ' :: collapseWs (d :: r') from by
                simp [collapseWs, ha, hd]] at hc
              rcases List.mem_cons.mp hc with rfl | hmem
              · rfl
              · exact ih c hmem hw
      · intro c hc hw
        rw [show collapseWs (a :: rest) = a :: collapseWs rest from by
          simp [collapseWs, ha]] at hc
        rcases List.mem_cons.mp hc with rfl | hmem
        · exact absurd hw ha
        · exact ih c hmem hw

theorem collapseWs_chain (l : List Char) :
    (collapseWs l).Chain' fun a b => ¬(isPySpace a = true ∧ isPySpace b = true) := by
  induction l with
  | nil => simp [collapseWs]
  | cons a rest ih =>
      by_cases ha : isPySpace a
      · cases rest with
        | nil =>
            rw [show collapseWs [a] = [' '] from by simp [collapseWs, ha]]
            simp
        | cons d r' =>
            by_cases hd : isPySpace d
            · rw [show collapseWs (a :: d :: r') = collapseWs (d :: r') from by
                simp [collapseWs, ha, hd]]
              exact ih
            · rw [show collapseWs (a :: d :: r') = ' ' :: collapseWs (d :: r') from by
                simp [collapseWs, ha, hd]]
              refine List.chain'_cons'.mpr ⟨?_, ih⟩
              intro y hy
              rw [collapseWs_head (d :: r')] at hy
              simp only [List.head?_cons, Option.mem_def] at hy
              rw [Option.map_some'] at hy
              rw [Option.some.injEq] at hy
              rintro ⟨-, hwy⟩
              rw [← hy] at hwy
              simp [hd] at hwy
      · rw [show collapseWs (a :: rest) = a :: collapseWs rest from by
          simp [collapseWs, ha]]
        refine List.chain'_cons'.mpr ⟨?_, ih⟩
        intro y _
        rintro ⟨hwa, -⟩
        exact ha hwa

theorem collapseWs_eq_self :
    ∀ {l : List Char},
      l.Chain' (fun a b => ¬(isPySpace a = true ∧ isPySpace b = true)) →
      (∀ c ∈ l, isPySpace c = true → c = ' ') →
      collapseWs l = l := by
  intro l
  induction l with
  | nil => intro _ _; rfl
  | cons a rest ih =>
      intro hch hsp
      by_cases ha : isPySpace a
      · have ha' : a = ' ' := hsp a (List.mem_cons_self a rest) ha
        cases rest with
        | nil => simp [collapseWs, ha, ha']
        | cons d r' =>
            have hd : ¬isPySpace d = true := by
              intro hdt
              exact (List.chain'_cons'.mp hch).1 d rfl ⟨ha, hdt⟩
            rw [show collapseWs (a :: d :: r') = ' ' :: collapseWs (d :: r') from by
              simp [collapseWs, ha, Bool.eq_false_iff.mpr hd]]
            rw [ih (List.Chain'.tail hch)
              (fun c hc hw => hsp c (List.mem_cons_of_mem _ hc) hw), ha']
      · rw [show collapseWs (a :: rest) = a :: collapseWs rest from by
          simp [collapseWs, ha]]
        rw [ih (List.Chain'.tail hch)
          (fun c hc hw => hsp c (List.mem_cons_of_mem _ hc) hw)]

theorem pyStrip_isInfix (w : List Char) : pyStrip w <:+: w := by
  have hsuf : w.dropWhile isPySpace <:+ w := List.dropWhile_suffix _
  have hpre : pyStrip w <+: w.dropWhile isPySpace := by
    rw [pyStrip, dropTrailWs_eq]
    exact List.rdropWhile_prefix isPySpace _
  exact List.IsInfix.trans (List.IsPrefix.isInfix hpre) (List.IsSuffix.isInfix hsuf)

/-! ## Claim theorems -/

/-- C1, counterexample: the round trip is NOT exact for every message and
segment size.  For `M = "A B"` and `S = 8` the second packet `" B<END> "`
is stripped on BOTH ends by the receiver's `.strip()`, losing the content
space, so reassembly yields `"AB"`, not `"A B"`. -/
theorem C1_roundtrip_cex :
    reassemble (packetize 8 (wrap [ 'A', ' ', 'B' ])) = [[ 'A', 'B' ]] ∧
    ([[ 'A', 'B' ]] : List (List Char)) ≠ [[ 'A', ' ', 'B' ]] := by
  decide

/-- C2, counterexample: the receiver does NOT strip only trailing pad
bytes.  `.strip()` also removes leading whitespace: a collecting receiver
fed the segment `" C<END> "` appends `"C"`, not `" C"`, so the message
completes as `"ABC"` instead of `"AB C"`. -/
theorem C2_strip_cex :
    pyStrip [ ' ', 'C' ] ≠ dropTrailWs [ ' ', 'C' ] ∧
    processPacket ⟨[ 'A', 'B' ], true⟩ ([ ' ', 'C' ] ++ endMarker ++ [ ' ' ]) =
      (rxInit, some [ 'A', 'B', 'C' ]) := by
  decide

/-- C3, counterexample: the stop rule is NOT case-insensitive.  The
source checks `text in ('stop', 'e-stop', 'estop')` by exact string
equality, so `"STOP"` falls through every rule to the parse error. -/
theorem C3_stop_case_cex :
    parseCmd defaultConfig [ 'S', 'T', 'O', 'P' ] = Command.err ∧
    Command.err ≠ Command.stop := by
  decide

/-- C4, counterexample: the sanitizer is NOT idempotent.  On `''a''` one
pass strips one quote layer giving `'a'`, and a second pass strips
another, giving `a`. -/
theorem C4_idem_cex :
    strip_wrappers (strip_wrappers [ sq, sq, 'a', sq, sq ]) ≠
      strip_wrappers [ sq, sq, 'a', sq, sq ] := by
  decide

/-- C5, counterexample: the meters value is NOT `+num` for `forward` when
the number carries a sign: the source applies `abs`, so
`drive forward -2` yields meters `2`, not `-2`. -/
theorem C5_sign_cex :
    parseCmd defaultConfig
        ([ 'd', 'r', 'i', 'v', 'e', ' ', 'f', 'o', 'r', 'w', 'a', 'r', 'd', ' ', '-', '2' ]) =
      Command.drive 2 (25 / 100) ∧ (2 : ℚ) ≠ -2 := by
  constructor
  · simp +decide [parseCmd, matchVel, matchDrive, matchTail, matchSpeedGroup, consumeCI,
      ws1, wsEnd, parseNum, clamp, pyMin, pyMax, absQ, defaultConfig]
    norm_num
  · norm_num

/-- C6: a start marker arriving while a message is collecting silently
discards the unfinished buffer; segments `"<START>AB"` then
`"<START>CD<END>"` emit exactly the message `"CD"`. -/
theorem C6_start_marker_reset :
    reassemble
        [[ '<', 'S', 'T', 'A', 'R', 'T', '>', 'A', 'B' ],
         [ '<', 'S', 'T', 'A', 'R', 'T', '>', 'C', 'D', '<', 'E', 'N', 'D', '>' ]] =
      [[ 'C', 'D' ]] := by
  decide

/-- C7: out-of-range velocity parameters are clamped to the closed
declared ranges, not rejected: `vel 10 0` parses to `vx = 0.6` and
`vel -10 0` to `vx = -0.6`. -/
theorem C7_vel_clamp :
    parseCmd defaultConfig [ 'v', 'e', 'l', ' ', '1', '0', ' ', '0' ] =
      Command.vel (6 / 10) 0 ∧
    parseCmd defaultConfig [ 'v', 'e', 'l', ' ', '-', '1', '0', ' ', '0' ] =
      Command.vel (-(6 / 10)) 0 := by
  constructor <;>
  · simp +decide [parseCmd, matchVel, consumeCI, ws1, wsEnd, parseNum, clamp, pyMin, pyMax]
    norm_num

/-- C8: an unparseable normalized text such as `"dance now"` produces
exactly one effect — the reply `error: could not parse command` followed
by the help text — and in particular no velocity publication and no goal
submission (the effect list contains no `publish`, `driveGoal` or
`rotateGoal`). -/
theorem C8_parse_error_no_side_effect :
    handleCommand defaultConfig
        [ 'd', 'a', 'n', 'c', 'e', ' ', 'n', 'o', 'w' ] =
      [ Effect.reply (("error: could not parse command\n").toList ++ commandHelp) ] := by
  decide

/-- C10: the receiver applies the start-marker reset once per segment,
keyed on the first occurrence: from any state, the single segment
`"<START>A<START>B"` leaves the buffer holding `"A<START>B"` — the
second marker is appended verbatim, not treated as a reset. -/
theorem C10_single_reset_per_segment :
    ∀ st : RxState,
      processPacket st
          [ '<', 'S', 'T', 'A', 'R', 'T', '>', 'A', '<', 'S', 'T', 'A', 'R', 'T', '>', 'B' ] =
        (⟨[ 'A', '<', 'S', 'T', 'A', 'R', 'T', '>', 'B' ], true⟩, none) :=
  fun _ => rfl

/-- C9: lifecycle of one asynchronous drive/rotate goal.  If the
submission acknowledgement carries no handle or a rejecting one, the
trace is exactly the single rejection reply and no completion reply ever
follows; if it is accepted, the acceptance reply comes first and the
completion reply appears (after it) exactly when the completion
notification arrives. -/
theorem C9_goal_lifecycle :
    ∀ (h : Option Bool) (c : Bool),
      ((h = none ∨ h = some false) →
        driveTrace h c = [("error: drive goal rejected").toList] ∧
        rotateTrace h c = [("error: rotate goal rejected").toList]) ∧
      (h = some true →
        driveTrace h c =
          ("ok: drive goal accepted").toList ::
            (if c then [("ok: drive done").toList] else []) ∧
        rotateTrace h c =
          ("ok: rotate goal accepted").toList ::
            (if c then [("ok: rotate done").toList] else [])) := by
  decide

/-- C9, witness: the accepted-and-completed trace and a rejected trace,
obtained from `C9_goal_lifecycle` at concrete events. -/
theorem C9_goal_lifecycle_witness :
    driveTrace (some true) true =
      [("ok: drive goal accepted").toList, ("ok: drive done").toList] ∧
    rotateTrace none false = [("error: rotate goal rejected").toList] :=
  ⟨((C9_goal_lifecycle (some true) true).2 rfl).1,
   ((C9_goal_lifecycle none false).1 (Or.inl rfl)).2⟩

/-- C3, amended: the stop rule is case-sensitive.  For every
configuration and every normalized text, the parser yields the Stop
command exactly when the text is literally `stop`, `e-stop` or `estop`
(lowercase); and dispatching Stop publishes zero velocity and replies
`ok: stopped`. -/
theorem C3_stop_exact_match :
    (∀ (cfg : Config) (t : List Char),
      parseCmd cfg t = Command.stop ↔
        (t = [ 's', 't', 'o', 'p' ] ∨ t = [ 'e', '-', 's', 't', 'o', 'p' ] ∨
         t = [ 'e', 's', 't', 'o', 'p' ])) ∧
    handleCommand defaultConfig [ 's', 't', 'o', 'p' ] =
      [ Effect.publish 0 0, Effect.reply (("ok: stopped").toList) ] := by
  constructor
  · intro cfg t
    by_cases h : t = [ 's', 't', 'o', 'p' ] ∨ t = [ 'e', '-', 's', 't', 'o', 'p' ] ∨
        t = [ 'e', 's', 't', 'o', 'p' ]
    · simp [parseCmd, h]
    · simp only [parseCmd, if_neg h]
      cases hv : matchVel t with
      | some p =>
          obtain ⟨n1, n2⟩ := p
          simp [h]
      | none =>
          cases hd : matchDrive t with
          | some p =>
              obtain ⟨dir, n, sp⟩ := p
              simp [h]
          | none =>
              cases hr : matchRotate t with
              | some p =>
                  obtain ⟨sense, n, sp⟩ := p
                  simp [h]
              | none => simp [h]
  · decide

/-- C3, witness: the amended rule applied at the concrete lowercase and
uppercase inputs. -/
theorem C3_stop_exact_match_witness :
    parseCmd defaultConfig [ 's', 't', 'o', 'p' ] = Command.stop ∧
    ¬parseCmd defaultConfig [ 'S', 'T', 'O', 'P' ] = Command.stop := by
  constructor
  · exact (C3_stop_exact_match.1 defaultConfig _).mpr (Or.inl rfl)
  · intro hcon
    have := (C3_stop_exact_match.1 defaultConfig _).mp hcon
    simp at this

/-- C5, amended: for every parsed `drive` command the direction word
alone encodes the sign of the meters value: it is `+abs(num)` for
`forward` and `-abs(num)` for `backward`, whatever the sign carried by
the number token. -/
theorem C5_direction_encodes_sign :
    ∀ (cfg : Config) (t : List Char) (dir : Bool) (n : ℚ) (sp : Option ℚ),
      matchDrive t = some (dir, n, sp) →
      parseCmd cfg t =
        Command.drive (if dir then absQ n else -(absQ n))
          (clamp (sp.getD cfg.defaultDriveSpeed) (5 / 100) (5 / 10)) ∧
      (0 : ℚ) ≤ absQ n := by
  intro cfg t dir n sp h
  obtain ⟨c, cs, rfl, hcl⟩ := matchDrive_head h
  refine ⟨?_, absQ_nonneg n⟩
  have hstop := stop_tuple_not_drive cs hcl
  have hvel := matchVel_none_of_head cs hcl
  rw [parseCmd, if_neg hstop]
  simp only [hvel, h]

/-- C5, witness: `drive backward 1.5` yields meters `-1.5` (and the
default speed), through `C5_direction_encodes_sign` at the concrete
match. -/
theorem C5_direction_encodes_sign_witness :
    parseCmd defaultConfig
        [ 'd', 'r', 'i', 'v', 'e', ' ', 'b', 'a', 'c', 'k', 'w', 'a', 'r', 'd', ' ',
          '1', '.', '5' ] =
      Command.drive (-(3 / 2)) (25 / 100) := by
  have hm : matchDrive
      [ 'd', 'r', 'i', 'v', 'e', ' ', 'b', 'a', 'c', 'k', 'w', 'a', 'r', 'd', ' ',
        '1', '.', '5' ] = some (false, 3 / 2, none) := by
    simp +decide [matchDrive, matchTail, matchSpeedGroup, consumeCI, ws1, wsEnd, parseNum]
    norm_num
  have h := C5_direction_encodes_sign defaultConfig _ false (3 / 2) none hm
  rw [h.1]
  norm_num [absQ, clamp, pyMin, pyMax, defaultConfig]

/-- C2, amended: the receiver's per-segment strip removes all leading
and all trailing whitespace (both ends, not only trailing pad bytes),
and preserves the chunk's interior verbatim: every decoded segment
splits as whitespace ++ stripped-chunk ++ whitespace, and the stripped
chunk neither starts nor ends with whitespace. -/
theorem C2_strip_interior_preserved :
    ∀ data : List Char, ∃ a b : List Char,
      a.all isPySpace = true ∧ b.all isPySpace = true ∧
      data = a ++ pyStrip data ++ b ∧
      ((pyStrip data).head?.all fun c => !isPySpace c) = true ∧
      ((pyStrip data).getLast?.all fun c => !isPySpace c) = true := by
  intro data
  set m := data.dropWhile isPySpace with hm
  refine ⟨data.takeWhile isPySpace, (m.reverse.takeWhile isPySpace).reverse,
    ?_, ?_, ?_, ?_, ?_⟩
  · simp only [List.all_eq_true]
    intro c hc
    exact List.mem_takeWhile_imp hc
  · simp only [List.all_eq_true]
    intro c hc
    exact List.mem_takeWhile_imp (List.mem_reverse.mp hc)
  · have hsplit : pyStrip data ++ (m.reverse.takeWhile isPySpace).reverse = m := by
      rw [pyStrip, dropTrailWs, ← hm, ← List.reverse_append,
        List.takeWhile_append_dropWhile, List.reverse_reverse]
    rw [List.append_assoc, hsplit, hm, List.takeWhile_append_dropWhile]
  · have hpre : pyStrip data <+: m := by
      rw [pyStrip, dropTrailWs_eq, ← hm]
      exact List.rdropWhile_prefix isPySpace m
    cases hps : pyStrip data with
    | nil => rfl
    | cons c r =>
        have h1 : m.head? = some c := by
          rw [head?_of_prefix_ne_nil hpre (by simp [hps]), hps]
          rfl
        have h2 := dropWhile_head_all isPySpace data
        rw [← hm, h1] at h2
        simpa [hps] using h2
  · by_cases hne : pyStrip data = []
    · simp [hne]
    · have hrd : pyStrip data = List.rdropWhile isPySpace m := by
        rw [pyStrip, dropTrailWs_eq, hm]
      have hlast := List.rdropWhile_last_not isPySpace m (by rw [← hrd]; exact hne)
      rw [List.getLast?_eq_getLast _ hne]
      simp only [Option.all_some, Bool.not_eq_true']
      rw [Bool.eq_false_iff]
      intro hcon
      apply hlast
      convert hcon using 2

/-- C1, amended: single-segment round trip.  For every message `M` with
no occurrence of the end marker and every segment size `S` at least the
wrapped length, packetizing `<START> + M + <END>` (one space-padded
segment) and reassembling through the receiver yields exactly `[M]`. -/
theorem C1_roundtrip_single_segment :
    ∀ (M : List Char) (S : Nat),
      firstIdx endMarker M = none → (wrap M).length ≤ S →
      reassemble (packetize S (wrap M)) = [M] := by
  intro M S hE hS
  have hwne : wrap M ≠ [] := by simp [wrap, startMarker]
  rw [packetize_single hwne hS]
  have hc0 : pyStrip (padTo S (wrap M)) = wrap M := pyStrip_wrap_pad M _
  have hsid : firstIdx startMarker (wrap M) = some 0 := by
    apply firstIdx_at_start (by simp [startMarker])
    have : wrap M = startMarker ++ (M ++ endMarker) := by
      rw [wrap, List.append_assoc]
    rw [this]
    exact isPrefixOf_self_append _ _
  have hdrop : (wrap M).drop (0 + startMarker.length) = M ++ endMarker := by
    rw [wrap, List.append_assoc, Nat.zero_add, List.drop_left]
  have hend : firstIdx endMarker (M ++ endMarker) = some M.length :=
    firstIdx_end_append hE
  have hp : processPacket rxInit (padTo S (wrap M)) = (rxInit, some M) := by
    rw [processPacket]
    simp only [hc0, hsid, hdrop, hend, List.take_left, List.nil_append, if_true]
  simp [reassemble, runRxFrom, hp]

/-- C1, witness: the round trip at `M = "hi"`, `S = 800` — the sender's
defaults — through `C1_roundtrip_single_segment`. -/
theorem C1_roundtrip_single_segment_witness :
    reassemble (packetize 800 (wrap [ 'h', 'i' ])) = [[ 'h', 'i' ]] :=
  C1_roundtrip_single_segment [ 'h', 'i' ] 800 (by decide) (by decide)

/-- C4, amended: the sanitizer is idempotent on every input whose first
pass reaches a fixpoint of the quote-stripping and of the two
marker-stripping steps — i.e. whenever `strip_wrappers x` is not again
quote-surrounded, does not begin with a start marker and does not end
with an end marker, a second pass changes nothing.  (The trim and
whitespace-collapse steps always reach a fixpoint after one pass; only
nested quote/marker layers break idempotence.) -/
theorem C4_sanitize_conditional_idem :
    ∀ x : List Char,
      unquote (strip_wrappers x) = strip_wrappers x →
      stripStartMk (strip_wrappers x) = strip_wrappers x →
      stripEndMk (strip_wrappers x) = strip_wrappers x →
      strip_wrappers (strip_wrappers x) = strip_wrappers x := by
  intro x hq hs he
  have hyz : strip_wrappers x =
      pyStrip (collapseWs (stripEndMk (stripStartMk (unquote (pyStrip x))))) := rfl
  have h1 : pyStrip (strip_wrappers x) = strip_wrappers x := by
    rw [hyz]
    exact pyStrip_idem _
  have h2 : collapseWs (strip_wrappers x) = strip_wrappers x := by
    rw [hyz]
    have hinf := pyStrip_isInfix
      (collapseWs (stripEndMk (stripStartMk (unquote (pyStrip x)))))
    apply collapseWs_eq_self
    · exact List.Chain'.infix (collapseWs_chain _) hinf
    · intro c hc hw2
      exact collapseWs_sp _ c (List.IsInfix.subset hinf hc) hw2
  calc strip_wrappers (strip_wrappers x)
      = pyStrip (collapseWs (stripEndMk (stripStartMk
          (unquote (pyStrip (strip_wrappers x)))))) := rfl
    _ = strip_wrappers x := by rw [h1, hq, hs, he, h2, h1]

/-- C4, witness: one pass over `"  '<START> go  now <END>'  "` gives
`go now`, which is a fixpoint of all three stripping steps, so the
second pass is the identity — by `C4_sanitize_conditional_idem` at that
input. -/
theorem C4_sanitize_conditional_idem_witness :
    strip_wrappers (strip_wrappers
      ([ ' ', ' ', sq, '<', 'S', 'T', 'A', 'R', 'T', '>', ' ', 'g', 'o', ' ', ' ',
         'n', 'o', 'w', ' ', '<', 'E', 'N', 'D', '>', sq, ' ', ' ' ])) =
    strip_wrappers
      ([ ' ', ' ', sq, '<', 'S', 'T', 'A', 'R', 'T', '>', ' ', 'g', 'o', ' ', ' ',
         'n', 'o', 'w', ' ', '<', 'E', 'N', 'D', '>', sq, ' ', ' ' ]) :=
  C4_sanitize_conditional_idem _ (by decide) (by decide) (by decide)

end Capstone
